import Mathlib

/-!
Verification development for the LeyesCL legal-research assistant.

The definitions below are a shallow embedding of the reference revision of
the application: the regex-based extraction layer (leyChileService), the
oracle clients (geminiService) and the bounded-loop orchestration state
machine (App). External network and oracle calls are modelled as fields of
an `Env` record; every orchestration function additionally returns the list
of external events it emitted, so that confirmation gating and re-fetch
avoidance can be stated as properties of the event trace.
-/

set_option maxRecDepth 4000

namespace LeyesCL

/-! ### Generic string machinery (JS regex and string operations). -/

/-- Predicate `leadsWith pat l` is true when `pat` is an initial segment of `l`. -/
def leadsWith : List Char → List Char → Bool
  | [], _ => true
  | _ :: _, [] => false
  | a :: as, b :: bs => a == b && leadsWith as bs

/-- Suffix of `hay` that follows the first occurrence of `pat`; `none` when
`pat` does not occur. -/
def splitAfterFirst (pat : List Char) : List Char → Option (List Char)
  | [] => if leadsWith pat [] then some ((([] : List Char)).drop pat.length) else none
  | h :: t =>
    if leadsWith pat (h :: t) then some ((h :: t).drop pat.length)
    else splitAfterFirst pat t

/-- The part of `hay` that comes before the first occurrence of `pat`;
`none` when `pat` does not occur. -/
def takeUntil (pat : List Char) : List Char → Option (List Char)
  | [] => if leadsWith pat [] then some [] else none
  | h :: t =>
    if leadsWith pat (h :: t) then some []
    else (takeUntil pat t).map (h :: ·)

/-- JS `String.prototype.includes`. -/
def containsSub (pat s : String) : Bool :=
  (splitAfterFirst pat.toList s.toList).isSome

/-- JS `String.prototype.trim` (whitespace stripped from both ends). -/
def jsTrim (s : String) : String :=
  String.mk
    (((s.toList.dropWhile (·.isWhitespace)).reverse.dropWhile (·.isWhitespace)).reverse)

/-- Replace every non-overlapping occurrence of `pat` by `rep`, scanning
left to right and resuming after each replacement (JS `replace` with the
`g` flag).  Fuelled so that the definition is structurally recursive. -/
def replaceAllFuel (pat rep : List Char) : Nat → List Char → List Char
  | 0, cs => cs
  | _ + 1, [] => []
  | fuel + 1, c :: t =>
    if leadsWith pat (c :: t) && pat.length != 0 then
      rep ++ replaceAllFuel pat rep fuel ((c :: t).drop pat.length)
    else c :: replaceAllFuel pat rep fuel t

/-- String-level wrapper for `replaceAllFuel`. -/
def replaceAllStr (s pat rep : String) : String :=
  String.mk (replaceAllFuel pat.toList rep.toList (s.toList.length + 1) s.toList)

/-- Case folding as performed by the JS `i` regex flag / `toLowerCase` on the
characters this code base compares: ASCII letters plus the accented capital
I found in the confirmation tokens. -/
def foldCaseChar (c : Char) : Char :=
  if c.isUpper then c.toLower else if c = 'Í' then 'í' else c

/-- Lower-cases a whole string (model of JS `toLowerCase` on the relevant
alphabet). -/
def jsLower (s : String) : String :=
  String.mk (s.toList.map foldCaseChar)

/-- HTML entity decoding applied by `findValueByRegex`, in source order. -/
def decodeEntities (s : String) : String :=
  replaceAllStr
    (replaceAllStr
      (replaceAllStr
        (replaceAllStr (replaceAllStr (replaceAllStr s "&amp;" "&") "&lt;" "<")
          "&gt;" ">")
        "&quot;" "\x22")
      "&#39;" "\x27")
    "&nbsp;" " "

/-- One pass of JS `replace(/\s+/g, "+")`: every maximal whitespace run
becomes a single plus sign.  The boolean argument records whether the
previous character was whitespace. -/
def squashWhitespaceAux : Bool → List Char → List Char
  | _, [] => []
  | prevWs, c :: rest =>
    if c.isWhitespace then
      if prevWs then squashWhitespaceAux true rest
      else '+' :: squashWhitespaceAux true rest
    else c :: squashWhitespaceAux false rest

/-- Model of `sq.trim().replace(/\s+/g, "+")` — the query formatting applied before
every candidate search. -/
def formatQuery (sq : String) : String :=
  String.mk (squashWhitespaceAux false (jsTrim sq).toList)

/-- JS `xmlText.trim().startsWith("<")`. -/
def trimmedStartsLt (s : String) : Bool :=
  match (jsTrim s).toList with
  | '<' :: _ => true
  | _ => false

/-! ### Extraction layer (leyChileService, regex revision). -/

/-- Raw capture of the classic non-greedy tag regex
`<Tag>([\s\S]*?)</Tag>`: the text between the first opening tag and the
first closing tag after it. -/
def tagCapture (tag : String) (xml : String) : Option String :=
  match splitAfterFirst ("<" ++ tag ++ ">").toList xml.toList with
  | none => none
  | some rest =>
    (takeUntil ("</" ++ tag ++ ">").toList rest).map (fun cs => String.mk cs)

/-- Model of `findValueByRegex` for a tag-pair regex: `undefined` when the capture is
missing or empty (JS truthiness on `match[1]`), otherwise the capture
trimmed and entity-decoded.  A whitespace-only capture is truthy and yields
the empty string after trimming, exactly as in the source. -/
def findValueIn (tag : String) (xml : String) : Option String :=
  match tagCapture tag xml with
  | none => none
  | some raw => if raw = "" then none else some (decodeEntities (jsTrim raw))

/-- JS `a || b` on optional strings: the left value unless it is absent or
empty (falsy). -/
def jsOrOpt (a b : Option String) : Option String :=
  match a with
  | some s => if s = "" then b else some s
  | none => b

/-- JS `\w`: letters, digits and underscore. -/
def isWordChar (c : Char) : Bool :=
  c.isAlpha || c.isDigit || c == '_'

/-- The shape accepted by the date regex `\d{2}-\w{3}-\d{4}` when anchored
to a whole eleven-character token. -/
def dateShape (cs : List Char) : Bool :=
  match cs with
  | [a, b, h1, c, d, e, h2, f, g, i, j] =>
    a.isDigit && b.isDigit && h1 == '-' && isWordChar c && isWordChar d &&
      isWordChar e && h2 == '-' && f.isDigit && g.isDigit && i.isDigit && j.isDigit
  | _ => false

/-- Attempt to read one date token at the head of the character list. -/
def grabDate : List Char → Option (List Char)
  | a :: b :: h1 :: c :: d :: e :: h2 :: f :: g :: i :: j :: _ =>
    let tok := [a, b, h1, c, d, e, h2, f, g, i, j]
    if dateShape tok then some tok else none
  | _ => none

/-- Leftmost match of `\d{2}-\w{3}-\d{4}` in the list. -/
def firstDateTok : List Char → Option (List Char)
  | [] => none
  | x :: rest =>
    match grabDate (x :: rest) with
    | some tok => some tok
    | none => firstDateTok rest

/-- Ordered candidate tags per semantic date keyword (`tagMap` in source). -/
def dateTagsFor (keyword : String) : List String :=
  if keyword = "Publicación" then ["FechaPublicacion"]
  else if keyword = "Vigencia|Inicio" then ["InicioVigencia", "FechaVigencia"]
  else []

/-- The tag-chain loop of `findDate`: first tag whose (truthy) content
contains a date token wins; otherwise fall through to the next tag. -/
def findDateTags (block : String) : List String → String
  | [] => "No informado"
  | tag :: rest =>
    match findValueIn tag block with
    | some content =>
      if content = "" then findDateTags block rest
      else
        match firstDateTok content.toList with
        | some tok => String.mk tok
        | none => findDateTags block rest
    | none => findDateTags block rest

/-- Function `findDate` from the regex revision of leyChileService. -/
def findDate (block keyword : String) : String :=
  findDateTags block (dateTagsFor keyword)

/-- Modelled from the spec: the date-token matcher as the specification
words it — two digits, hyphen, a three-LETTER month abbreviation, hyphen,
four digits.  It differs from the source matcher only in the middle
component (letters only instead of word characters). -/
def dateShapeSpec (cs : List Char) : Bool :=
  match cs with
  | [a, b, h1, c, d, e, h2, f, g, i, j] =>
    a.isDigit && b.isDigit && h1 == '-' && c.isAlpha && d.isAlpha &&
      e.isAlpha && h2 == '-' && f.isDigit && g.isDigit && i.isDigit && j.isDigit
  | _ => false

/-- Modelled from the spec: head-anchored month-abbreviation date token. -/
def grabDateSpec : List Char → Option (List Char)
  | a :: b :: h1 :: c :: d :: e :: h2 :: f :: g :: i :: j :: _ =>
    let tok := [a, b, h1, c, d, e, h2, f, g, i, j]
    if dateShapeSpec tok then some tok else none
  | _ => none

/-- Modelled from the spec: leftmost month-abbreviation date token. -/
def firstDateTokSpec : List Char → Option (List Char)
  | [] => none
  | x :: rest =>
    match grabDateSpec (x :: rest) with
    | some tok => some tok
    | none => firstDateTokSpec rest

/-- Modelled from the spec: `findDate` with the strictly
month-abbreviation-shaped token matcher the spec describes. -/
def findDateTagsSpec (block : String) : List String → String
  | [] => "No informado"
  | tag :: rest =>
    match findValueIn tag block with
    | some content =>
      if content = "" then findDateTagsSpec block rest
      else
        match firstDateTokSpec content.toList with
        | some tok => String.mk tok
        | none => findDateTagsSpec block rest
    | none => findDateTagsSpec block rest

/-- Modelled from the spec: the date extractor following the wording of the
specification. -/
def findDateSpec (block keyword : String) : String :=
  findDateTagsSpec block (dateTagsFor keyword)

/-- Model of `findValueByRegex` for the inline attribute regex
`<Norma\s+id="([^"]+)"`: scan left to right for `<Norma`, require at least
one whitespace character, then the literal `id="` and a non-empty capture
terminated by a quote. -/
def normaIdAttrScan : List Char → Option String
  | [] => none
  | c :: t =>
    if leadsWith "<Norma".toList (c :: t) then
      let r0 := (c :: t).drop 6
      let ws := r0.takeWhile (·.isWhitespace)
      let r1 := r0.dropWhile (·.isWhitespace)
      if ws ≠ [] && leadsWith "id=\x22".toList r1 then
        let r2 := r1.drop 4
        let cap := r2.takeWhile (· ≠ '\x22')
        if cap ≠ [] && r2.drop cap.length ≠ [] then
          some (decodeEntities (jsTrim (String.mk cap)))
        else normaIdAttrScan t
      else normaIdAttrScan t
    else normaIdAttrScan t

/-- Model of `findValueByRegex` for the typed-identifier regex
`<Identificador\s+tipo="Número Ley">([\s\S]*?)</Identificador>`. -/
def identificadorScan : List Char → Option String
  | [] => none
  | c :: t =>
    if leadsWith "<Identificador".toList (c :: t) then
      let r0 := (c :: t).drop 14
      let ws := r0.takeWhile (·.isWhitespace)
      let r1 := r0.dropWhile (·.isWhitespace)
      if ws ≠ [] && leadsWith "tipo=\x22Número Ley\x22>".toList r1 then
        let r2 := r1.drop 18
        match takeUntil "</Identificador>".toList r2 with
        | some cap =>
          if cap = [] then none
          else some (decodeEntities (jsTrim (String.mk cap)))
        | none => none
      else identificadorScan t
    else identificadorScan t

/-- Model of `findValueByRegex` on the nested metadata title regex: a sequential
first-occurrence chain through `<Metadatos>`, `<Norma>`, `<Titulo>` with
the matching closers required afterwards. -/
def metaTitleCapture (xml : String) : Option String :=
  match splitAfterFirst "<Metadatos>".toList xml.toList with
  | none => none
  | some r1 =>
    match splitAfterFirst "<Norma>".toList r1 with
    | none => none
    | some r2 =>
      match splitAfterFirst "<Titulo>".toList r2 with
      | none => none
      | some r3 =>
        match takeUntil "</Titulo>".toList r3 with
        | none => none
        | some cap =>
          let rest := r3.drop (cap.length + 9)
          match splitAfterFirst "</Norma>".toList rest with
          | none => none
          | some r4 =>
            match splitAfterFirst "</Metadatos>".toList r4 with
            | none => none
            | some _ =>
              if cap = [] then none
              else some (decodeEntities (jsTrim (String.mk cap)))

/-- Function `findId`: explicit identifier tag, else inline attribute, else the
sentinel. -/
def findId (block : String) : String :=
  (jsOrOpt (findValueIn "IdNorma" block)
    (jsOrOpt (normaIdAttrScan block.toList) (some "Desconocido"))).getD "Desconocido"

/-- Function `findTitle`: explicit title tag, else nested metadata path, else the
placeholder. -/
def findTitle (block : String) : String :=
  (jsOrOpt (findValueIn "TituloNorma" block)
    (jsOrOpt (metaTitleCapture block) (some "Título no encontrado"))).getD
    "Título no encontrado"

/-- Function `findLawNumber`: explicit number tag, else typed-identifier element,
else absent. -/
def findLawNumber (block : String) : Option String :=
  jsOrOpt (findValueIn "Numero" block) (identificadorScan block.toList)

/-- One document found by a search (`FetchedItem` in types.ts). -/
structure FetchedItem where
  id : String
  title : String
  publicationDate : String
  effectiveDate : String
  link : String
  lawNumber : Option String
  deriving DecidableEq, Repr

/-- Parse one `<Norma>…</Norma>` block into a candidate record. -/
def parseBlock (block : String) : FetchedItem :=
  let id := findId block
  { id := id
    title := findTitle block
    publicationDate := findDate block "Publicación"
    effectiveDate := findDate block "Vigencia|Inicio"
    link := "https://www.leychile.cl/navegar?idNorma=" ++ id
    lawNumber := findLawNumber block }

/-- Global matches of `/<Norma[\s\S]*?<\/Norma>/g`, fuelled by the input
length: each match runs from an occurrence of `<Norma` to the first
`</Norma>` after it, and scanning resumes past the match. -/
def normaBlocksAux : Nat → List Char → List (List Char)
  | 0, _ => []
  | fuel + 1, cs =>
    match splitAfterFirst "<Norma".toList cs with
    | none => []
    | some rest =>
      match takeUntil "</Norma>".toList rest with
      | none => []
      | some mid =>
        ("<Norma".toList ++ mid ++ "</Norma>".toList) ::
          normaBlocksAux fuel (rest.drop (mid.length + 8))

/-- All document blocks of a candidate-search response. -/
def normaBlocks (s : String) : List String :=
  (normaBlocksAux (s.toList.length + 1) s.toList).map (fun cs => String.mk cs)

/-- The body of `fetchLawCandidates` after the transport returned
`xmlText`: the basic validity check, the short-error-banner escalation, and
block-by-block parsing. -/
def parseCandidatesResponse (xmlText : String) : Except String (List FetchedItem) :=
  if !trimmedStartsLt xmlText ||
      (!containsSub "<Norma" xmlText && !containsSub "<Listado" xmlText) then
    if xmlText.length < 200 && containsSub "error" (jsLower xmlText) then
      .error ("El servidor de LeyChile devolvió un error: " ++ xmlText)
    else .ok []
  else .ok ((normaBlocks xmlText).map parseBlock)

/-! ### Data model (types.ts, reference revision). -/

/-- A candidate together with the search terms that surfaced it
(`ResultItem`). -/
structure ResultItem extends FetchedItem where
  sourceQueries : List String
  deriving DecidableEq, Repr

/-- A dossier record: candidate metadata plus full text and extracted
snippets (`DossierItem` in App). -/
structure DossierItem extends ResultItem where
  fullText : String
  snippets : List String
  deriving DecidableEq, Repr

/-- A finalized citation (`AiReference`). -/
structure AiReference where
  id : String
  lawNumber : Option String
  title : String
  fragment : String
  publicationDate : String
  effectiveDate : String
  link : String
  sourceQueries : List String
  deriving DecidableEq, Repr

/-- Message roles. -/
inductive Role where
  | user
  | model
  deriving DecidableEq, Repr

/-- One conversation turn (`ChatMessage`). -/
structure ChatMessage where
  role : Role
  content : String
  references : Option (List AiReference) := none
  isLoading : Bool := false
  isAwaitingConfirmation : Bool := false
  isClarificationRequest : Bool := false
  deriving DecidableEq, Repr

/-- The four plan shapes returned by the planning oracle
(`AiPlanningResponse`). -/
inductive AiPlanningResponse where
  | clarify (clarificationQuestion : String)
  | propose (proposal : String) (newSearchQueries : List String)
  | searchMore (newSearchQueries : List String) (reasoning : String)
  | respond (answer : String) (references : List AiReference)
  deriving DecidableEq, Repr

/-- Observable external calls made during a turn. -/
inductive Event where
  | searchReq (query : String)
  | textReq (id : String)
  | snippetReq (id : String)
  | planReq (messages : List ChatMessage) (dossier : List DossierItem) (attempt : Nat)
  deriving DecidableEq, Repr

/-- The external world: raw planning oracle, candidate-search backend,
full-text backend and snippet oracle.  `Except.error` models a thrown
error. -/
structure Env where
  planOracle : List ChatMessage → List DossierItem → Nat → Except String AiPlanningResponse
  searchBackend : String → Except String (List FetchedItem)
  textBackend : String → Except String String
  snippetOracle : String → String → String → List String

/-! ### Dossier (insertion-ordered map, JS `Map` semantics). -/

/-- Model of JS `Map.has`. -/
def dHas {α : Type} (d : List (String × α)) (k : String) : Bool :=
  d.any (·.1 == k)

/-- Model of JS `Map.get` as an option. -/
def dGet? {α : Type} (d : List (String × α)) (k : String) : Option α :=
  (d.find? (·.1 == k)).map (·.2)

/-- Model of JS `Map.set`: replace in place when the key exists, append otherwise. -/
def dSet {α : Type} (d : List (String × α)) (k : String) (v : α) :
    List (String × α) :=
  if d.any (·.1 == k) then d.map (fun p => if p.1 == k then (k, v) else p)
  else d ++ [(k, v)]

/-- The dossier: identifier-keyed, insertion-ordered. -/
abbrev Dossier := List (String × DossierItem)

/-- Model of JS `Array.from(map.values())`. -/
def dVals (d : Dossier) : List DossierItem :=
  d.map (·.2)

/-- Keys of an identifier-keyed map, in insertion order. -/
def dKeys {α : Type} (d : List (String × α)) : List String :=
  d.map (·.1)

/-- The dossier invariant: no duplicate identifiers and no sentinel
identifier. -/
def dInv (d : Dossier) : Prop :=
  (dKeys d).Nodup ∧ "Desconocido" ∉ dKeys d

/-! ### Oracle clients (geminiService). -/

/-- Reference reconciliation inside `analyzeAndPlanNextStep`: a reference
whose identifier matches a dossier record gets that record as the
authority for law number, dates, link and source queries; others pass
through untouched. -/
def reconcileReferences (dossier : List DossierItem) (refs : List AiReference) :
    List AiReference :=
  refs.map (fun r =>
    match dossier.find? (fun item => item.id == r.id) with
    | some item =>
      { r with
        lawNumber := item.lawNumber
        publicationDate := item.publicationDate
        effectiveDate := item.effectiveDate
        link := item.link
        sourceQueries := item.sourceQueries }
    | none => r)

/-- Function `analyzeAndPlanNextStep`: call the raw oracle; any upstream failure is
caught and rethrown as a fixed planning error; a RESPOND plan has its
references reconciled against the dossier snapshot. -/
def analyzeAndPlanNextStep (env : Env) (msgs : List ChatMessage)
    (dossier : List DossierItem) (attempt : Nat) :
    Except String AiPlanningResponse :=
  match env.planOracle msgs dossier attempt with
  | .error _ => .error "La IA no pudo decidir el siguiente paso."
  | .ok (.respond a refs) => .ok (.respond a (reconcileReferences dossier refs))
  | .ok p => .ok p

/-- Function `extractRelevantSnippets`, with the upstream generate-content call
abstracted to an `Except` over an optional response text and `JSON.parse`
(read as a string array) abstracted to `parse`.  The second component of
the result records which raw texts were handed to the JSON parser.  A
thrown parse error is caught and degrades to the empty sequence. -/
def extractRelevantSnippets (upstream : Except String (Option String))
    (parse : String → Option (List String)) : List String × List String :=
  match upstream with
  | .error _ => ([], [])
  | .ok none => ([], [])
  | .ok (some t) =>
    if t = "" then ([], [])
    else
      match parse t with
      | some arr => (arr, [t])
      | none => ([], [t])

/-- Modelled from the spec: stripping a markdown code-fence wrapper from a
raw oracle response (the recovery step the specification describes for
snippet parsing; it is absent from the source). -/
def stripCodeFence (s : String) : String :=
  let t := jsTrim s
  let cs := t.toList
  if leadsWith "\x60\x60\x60".toList cs then
    let body := ((cs.drop 3).dropWhile (· ≠ '\n')).drop 1
    let rev := (jsTrim (String.mk body)).toList.reverse
    if leadsWith "\x60\x60\x60".toList rev then
      jsTrim (String.mk (rev.drop 3).reverse)
    else jsTrim (String.mk body)
  else t

/-- Modelled from the spec: `extractRelevantSnippets` as the specification
words it — on a parse failure, strip a markdown code fence from the raw
text and retry the parse exactly once before degrading to the empty
sequence. -/
def extractRelevantSnippetsSpec (upstream : Except String (Option String))
    (parse : String → Option (List String)) : List String × List String :=
  match upstream with
  | .error _ => ([], [])
  | .ok none => ([], [])
  | .ok (some t) =>
    if t = "" then ([], [])
    else
      match parse t with
      | some arr => (arr, [t])
      | none =>
        let t2 := stripCodeFence t
        match parse t2 with
        | some arr => (arr, [t, t2])
        | none => ([], [t, t2])

/-! ### Full-text fetch (leyChileService). -/

/-- Function `fetchFullLawText`: the guard on empty and sentinel identifiers answers
with empty text before any request is issued; otherwise the backend is
consulted (one `textReq` event). -/
def fetchFullLawText (env : Env) (idNorma : String) :
    Except String String × List Event :=
  if idNorma = "" || idNorma = "Desconocido" then (.ok "", [])
  else (env.textBackend idNorma, [.textReq idNorma])

/-! ### Orchestration state machine (App, bounded-loop revision). -/

/-- Loop ceiling (`MAX_SEARCH_LOOPS`). -/
def MAX_SEARCH_LOOPS : Nat := 2

/-- Widen a fetched candidate with its source query. -/
def toResult (it : FetchedItem) (sq : String) : ResultItem :=
  { toFetchedItem := it, sourceQueries := [sq] }

/-- Candidate collection phase of one search iteration: query the backend
for every search term and keep, keyed by identifier, the candidates that
are neither the sentinel nor already dossiered. -/
def collectCandidates (env : Env) (d : Dossier) :
    List String → List (String × ResultItem) →
    Except String (List (String × ResultItem)) × List Event
  | [], uniq => (.ok uniq, [])
  | sq :: rest, uniq =>
    let fq := formatQuery sq
    match env.searchBackend fq with
    | .error e => (.error e, [.searchReq fq])
    | .ok items =>
      let uniq2 := items.foldl (fun u it =>
        if it.id != "Desconocido" && !dHas d it.id then dSet u it.id (toResult it sq)
        else u) uniq
      let r := collectCandidates env d rest uniq2
      (r.1, .searchReq fq :: r.2)

/-- Build the dossier record stored for a processed law. -/
def mkDossierItem (law : ResultItem) (fullText : String) (snippets : List String) :
    DossierItem :=
  { toResultItem := law, fullText := fullText, snippets := snippets }

/-- Enrichment phase of one search iteration: fetch full text for each new
law and store it with its snippets; laws whose full text comes back empty
are skipped silently. -/
def processLaws (env : Env) (queryText : String) :
    List ResultItem → Dossier → Except String Unit × Dossier × List Event
  | [], d => (.ok (), d, [])
  | law :: rest, d =>
    let f := fetchFullLawText env law.id
    match f.1 with
    | .error e => (.error e, d, f.2)
    | .ok ft =>
      if ft = "" then
        let r := processLaws env queryText rest d
        (r.1, r.2.1, f.2 ++ r.2.2)
      else
        let sn := env.snippetOracle queryText law.id ft
        let r := processLaws env queryText rest (dSet d law.id (mkDossierItem law ft sn))
        (r.1, r.2.1, f.2 ++ [.snippetReq law.id] ++ r.2.2)

/-- Content of the last message of the turn history (the text handed to the
snippet oracle). -/
def lastContent (msgs : List ChatMessage) : String :=
  ((msgs.getLast?).map (·.content)).getD ""

/-- One body execution of the `while` loop in `executeSearchLoop`:
candidate collection followed by enrichment.  Returns the outcome, the
dossier as left by whatever writes happened, and the emitted events. -/
def searchIteration (env : Env) (queries : List String)
    (cur : List ChatMessage) (d : Dossier) :
    Except String Unit × Dossier × List Event :=
  match collectCandidates env d queries [] with
  | (.error e, evs) => (.error e, d, evs)
  | (.ok uniq, evs) =>
    let r := processLaws env (lastContent cur) (uniq.map (·.2)) d
    (r.1, r.2.1, evs ++ r.2.2)

/-- The model turn appended when a RESPOND plan is surfaced. -/
def respondMsg (answer : String) (refs : List AiReference) : ChatMessage :=
  { role := .model, content := answer, references := some refs }

/-- The progress turn appended when the loop deepens the search. -/
def deepenMsg (reasoning : String) : ChatMessage :=
  { role := .model
    content := "Investigación inicial completada. Profundizando sobre: \x22" ++
      reasoning ++ "\x22..."
    isLoading := true }

/-- The terminal failure raised when the loop ceiling is exhausted. -/
def loopFailText : String :=
  "No pude encontrar una respuesta satisfactoria después de múltiples búsquedas."

/-- The failure raised when even the forced plan cannot respond. -/
def forcedFailText : String :=
  "No pude formular una respuesta con la información encontrada."

/-- Function `executeSearchLoop`, fuelled by the remaining loop budget.  Returns the
outcome, the chat history, the dossier and the emitted events. -/
def executeSearchLoopAux (env : Env) :
    Nat → List String → List ChatMessage → List ChatMessage → Dossier →
    Except String Unit × List ChatMessage × Dossier × List Event
  | 0, _, _, ui, d => (.error loopFailText, ui, d, [])
  | n + 1, queries, cur, ui, d =>
    let it := searchIteration env queries cur d
    let d1 := it.2.1
    let evs := it.2.2
    match it.1 with
    | .error e => (.error e, ui, d1, evs)
    | .ok _ =>
      let pe := Event.planReq cur (dVals d1) 0
      match analyzeAndPlanNextStep env cur (dVals d1) 0 with
      | .error e => (.error e, ui, d1, evs ++ [pe])
      | .ok (.respond ans refs) =>
        (.ok (), ui ++ [respondMsg ans refs], d1, evs ++ [pe])
      | .ok (.searchMore qs r) =>
        let rr := executeSearchLoopAux env n qs cur (ui ++ [deepenMsg r]) d1
        (rr.1, rr.2.1, rr.2.2.1, evs ++ [pe] ++ rr.2.2.2)
      | .ok _ =>
        let pe2 := Event.planReq cur (dVals d1) 99
        match analyzeAndPlanNextStep env cur (dVals d1) 99 with
        | .ok (.respond ans refs) =>
          (.ok (), ui ++ [respondMsg ans refs], d1, evs ++ [pe, pe2])
        | .ok _ => (.error forcedFailText, ui, d1, evs ++ [pe, pe2])
        | .error e => (.error e, ui, d1, evs ++ [pe, pe2])

/-- Function `executeSearchLoop` proper: the loop starts with the full budget. -/
def executeSearchLoop (env : Env) (queries : List String)
    (cur ui : List ChatMessage) (d : Dossier) :
    Except String Unit × List ChatMessage × Dossier × List Event :=
  executeSearchLoopAux env MAX_SEARCH_LOOPS queries cur ui d

/-! ### Message handling (App, bounded-loop revision). -/

/-- The strict confirmation check
`/^(s[ií]|procede|correcto|acepto|dale|ok)/i.test(newMessage.trim())`. -/
def confirmTest (m : String) : Bool :=
  let t := (jsTrim m).toList.map foldCaseChar
  ["sí", "si", "procede", "correcto", "acepto", "dale", "ok"].any
    (fun tok => leadsWith tok.toList t)

/-- Conversation-scoped state: turn history, dossier, clarification
counter, pending plan and last error. -/
structure AppState where
  chatMessages : List ChatMessage
  dossier : Dossier
  clarificationAttempt : Nat
  proposedPlan : Option (List String)
  error : Option String
  deriving Repr

/-- The user turn appended for an incoming message. -/
def userMsg (content : String) : ChatMessage :=
  { role := .user, content := content }

/-- The clarification turn surfaced for a CLARIFY plan. -/
def clarifyMsg (question : String) : ChatMessage :=
  { role := .model, content := question, isClarificationRequest := true }

/-- The turn surfaced for a SEARCH_MORE plan received outside the loop: it
is converted into a new proposal awaiting confirmation. -/
def searchMoreProposalMsg (reasoning : String) : ChatMessage :=
  { role := .model
    content := "Entendido. Basado en tu respuesta, he ajustado el plan. Propongo investigar lo siguiente:\n\n*   " ++
      reasoning ++ "\n\n¿Procedemos con esta nueva búsqueda?"
    isAwaitingConfirmation := true }

/-- The error turn appended by the catch-all handler. -/
def errorMsg (e : String) : ChatMessage :=
  { role := .model, content := "Lo siento, ocurrió un error: " ++ e }

/-- Function `handleAiPlan`: surface the received plan, recording a pending plan for
PROPOSE_PLAN and SEARCH_MORE. -/
def handleAiPlan (plan : AiPlanningResponse) (msgs : List ChatMessage)
    (pending : Option (List String)) : List ChatMessage × Option (List String) :=
  match plan with
  | .clarify q => (msgs ++ [clarifyMsg q], pending)
  | .propose proposal qs =>
    (msgs ++ [{ role := .model, content := proposal, isAwaitingConfirmation := true }],
      some qs)
  | .searchMore qs reasoning => (msgs ++ [searchMoreProposalMsg reasoning], some qs)
  | .respond ans refs => (msgs ++ [respondMsg ans refs], pending)

/-- Whether the previous turn awaits confirmation. -/
def lastAwaiting (s : AppState) : Bool :=
  ((s.chatMessages.getLast?).map (·.isAwaitingConfirmation)).getD false

/-- Whether the previous turn is a clarification request. -/
def lastClarification (s : AppState) : Bool :=
  ((s.chatMessages.getLast?).map (·.isClarificationRequest)).getD false

/-- Function `handleSendMessage`: the per-user-turn transition of the orchestration
state machine, returning the next state and the emitted events. -/
def handleSendMessage (env : Env) (s : AppState) (newMessage : String) :
    AppState × List Event :=
  let newMessages := s.chatMessages ++ [userMsg newMessage]
  if lastAwaiting s then
    match s.proposedPlan, confirmTest newMessage with
    | some plan, true =>
      let ui0 := newMessages ++
        [{ role := .model, content := "¡Entendido! Iniciando investigación...",
           isLoading := true }]
      let r := executeSearchLoop env plan newMessages ui0 s.dossier
      match r.1 with
      | .ok _ =>
        ({ s with chatMessages := r.2.1, dossier := r.2.2.1, error := none }, r.2.2.2)
      | .error e =>
        ({ s with
            chatMessages := r.2.1 ++ [errorMsg e]
            dossier := r.2.2.1
            error := some e }, r.2.2.2)
    | _, _ =>
      let ev := Event.planReq newMessages (dVals s.dossier) s.clarificationAttempt
      match analyzeAndPlanNextStep env newMessages (dVals s.dossier)
          s.clarificationAttempt with
      | .ok p =>
        let hp := handleAiPlan p newMessages s.proposedPlan
        ({ s with chatMessages := hp.1, proposedPlan := hp.2, error := none }, [ev])
      | .error e =>
        ({ s with chatMessages := newMessages ++ [errorMsg e], error := some e }, [ev])
  else
    let isClar := lastClarification s
    let d0 : Dossier := if isClar then s.dossier else []
    let att := if isClar then s.clarificationAttempt + 1 else 0
    let pend0 := if isClar then s.proposedPlan else none
    let ev := Event.planReq newMessages (dVals d0) att
    match analyzeAndPlanNextStep env newMessages (dVals d0) att with
    | .ok p =>
      let hp := handleAiPlan p newMessages pend0
      ({ chatMessages := hp.1, dossier := d0, clarificationAttempt := att,
         proposedPlan := hp.2, error := none }, [ev])
    | .error e =>
      ({ chatMessages := newMessages ++ [errorMsg e], dossier := d0,
         clarificationAttempt := att, proposedPlan := pend0, error := some e }, [ev])

/-! ### Lemmas about the ordered-map operations. -/

theorem dHas_iff_mem {α : Type} (d : List (String × α)) (k : String) :
    dHas d k = true ↔ k ∈ dKeys d := by
  simp [dHas, dKeys, List.any_eq_true, List.mem_map, beq_iff_eq]

theorem dSet_of_not_has {α : Type} (d : List (String × α)) (k : String) (v : α)
    (h : dHas d k = false) : dSet d k v = d ++ [(k, v)] := by
  simp only [dSet]
  rw [show (d.any (·.1 == k)) = dHas d k from rfl, h]
  simp

theorem dKeys_append {α : Type} (d e : List (String × α)) :
    dKeys (d ++ e) = dKeys d ++ dKeys e := by
  simp [dKeys]

theorem dKeys_dSet_of_has {α : Type} (d : List (String × α)) (k : String) (v : α)
    (h : dHas d k = true) : dKeys (dSet d k v) = dKeys d := by
  simp only [dSet]
  rw [show (d.any (·.1 == k)) = dHas d k from rfl, h]
  simp only [if_pos]
  simp only [dKeys, List.map_map]
  apply List.map_congr_left
  intro p _
  by_cases hp : p.1 = k
  · simp [hp]
  · simp [hp]

theorem mem_dSet {α : Type} {d : List (String × α)} {k : String} {v : α} {p : String × α}
    (h : p ∈ dSet d k v) : p = (k, v) ∨ p ∈ d := by
  simp only [dSet] at h
  by_cases hh : d.any (·.1 == k)
  · rw [if_pos hh] at h
    rcases List.mem_map.mp h with ⟨q, hq, he⟩
    by_cases hq1 : q.1 == k
    · left
      rw [← he]
      simp [hq1]
    · right
      rw [← he]
      simpa [hq1] using hq
  · rw [if_neg hh] at h
    rcases List.mem_append.mp h with h1 | h1
    · right
      exact h1
    · left
      simpa using h1

theorem dGet?_append_left {α : Type} (d e : List (String × α)) (k : String)
    (h : dHas d k = true) : dGet? (d ++ e) k = dGet? d k := by
  simp only [dGet?]
  rw [List.find?_append]
  suffices hs : (d.find? (·.1 == k)).isSome by
    rcases Option.isSome_iff_exists.mp hs with ⟨p, hp⟩
    simp [hp]
  rw [List.find?_isSome]
  simpa [dHas, List.any_eq_true] using h

theorem dHas_append {α : Type} (d e : List (String × α)) (k : String) :
    dHas (d ++ e) k = (dHas d k || dHas e k) := by
  simp [dHas]

theorem dGet?_cons {α : Type} (p : String × α) (t : List (String × α)) (k : String) :
    dGet? (p :: t) k = if p.1 = k then some p.2 else dGet? t k := by
  simp only [dGet?, List.find?_cons]
  by_cases h : p.1 = k
  · have hb : (p.1 == k) = true := beq_iff_eq.mpr h
    simp [h, hb]
  · have hb : (p.1 == k) = false := beq_eq_false_iff_ne.mpr h
    simp [h, hb]

theorem dGet?_mapReplace_cases {α : Type} (k0 k : String) (v0 : α) :
    ∀ (t : List (String × α)) {v : α},
      dGet? (t.map (fun p => if p.1 = k0 then (k0, v0) else p)) k = some v →
      dGet? t k = some v ∨ v = v0 := by
  intro t
  induction t with
  | nil =>
    intro v h
    simp [dGet?] at h
  | cons p t ih =>
    intro v h
    rw [List.map_cons] at h
    by_cases hp : p.1 = k0
    · rw [if_pos hp] at h
      rw [dGet?_cons] at h
      by_cases hk : k0 = k
      · right
        rw [if_pos (show ((k0, v0).1 = k) from hk)] at h
        exact (Option.some.inj h).symm
      · have hpk : ¬ p.1 = k := by
          rw [hp]
          exact hk
        rw [if_neg (show ¬ ((k0, v0).1 = k) from hk)] at h
        rw [dGet?_cons, if_neg hpk]
        exact ih h
    · rw [if_neg hp] at h
      rw [dGet?_cons] at h
      rw [dGet?_cons]
      by_cases hpk : p.1 = k
      · rw [if_pos hpk] at h
        rw [if_pos hpk]
        left
        exact h
      · rw [if_neg hpk] at h
        rw [if_neg hpk]
        exact ih h

theorem dGet?_dSet_cases {α : Type} (d : List (String × α)) (k0 k : String) (v0 : α)
    {v : α} (h : dGet? (dSet d k0 v0) k = some v) :
    dGet? d k = some v ∨ v = v0 := by
  simp only [dSet] at h
  by_cases hh : d.any (·.1 == k0)
  · rw [if_pos hh] at h
    have hmap : d.map (fun p => if p.1 == k0 then (k0, v0) else p) =
        d.map (fun p => if p.1 = k0 then (k0, v0) else p) := by
      apply List.map_congr_left
      intro p _
      by_cases hp : p.1 = k0
      · have hb : (p.1 == k0) = true := beq_iff_eq.mpr hp
        simp [hb, hp]
      · have hb : (p.1 == k0) = false := beq_eq_false_iff_ne.mpr hp
        simp [hb, hp]
    rw [hmap] at h
    exact dGet?_mapReplace_cases k0 k v0 d h
  · rw [if_neg hh] at h
    simp only [dGet?] at h ⊢
    rw [List.find?_append] at h
    cases hf : d.find? (·.1 == k) with
    | some p =>
      rw [hf] at h
      left
      simpa using h
    | none =>
      rw [hf] at h
      simp only [Option.none_or] at h
      right
      by_cases hk : k0 = k
      · simp [List.find?_cons, hk] at h
        exact h.symm
      · simp [List.find?_cons, hk] at h

theorem dHas_dSet_cases {α : Type} (d : List (String × α)) (k0 k : String) (v0 : α)
    (h : dHas (dSet d k0 v0) k = true) : dHas d k = true ∨ k = k0 := by
  rw [dHas_iff_mem] at h
  rcases List.mem_map.mp h with ⟨p, hp, he⟩
  rcases mem_dSet hp with h1 | h1
  · right
    rw [← he, h1]
  · left
    rw [dHas_iff_mem]
    exact List.mem_map.mpr ⟨p, h1, he⟩

/-! ### Lemmas about candidate collection. -/

/-- Invariant of the per-iteration candidate accumulator, relative to the
dossier `d` at the start of the iteration. -/
def UInv (d : Dossier) (u : List (String × ResultItem)) : Prop :=
  (u.map (·.1)).Nodup ∧
    ∀ p ∈ u, p.1 = p.2.id ∧ dHas d p.1 = false ∧ p.1 ≠ "Desconocido"

theorem uinv_dSet {d : Dossier} {u : List (String × ResultItem)}
    (hu : UInv d u) (it : FetchedItem) (sq : String)
    (h1 : it.id ≠ "Desconocido") (h2 : dHas d it.id = false) :
    UInv d (dSet u it.id (toResult it sq)) := by
  rcases hu with ⟨hn, hp⟩
  constructor
  · show (dKeys (dSet u it.id (toResult it sq))).Nodup
    by_cases hh : dHas u it.id = true
    · rw [dKeys_dSet_of_has u it.id _ hh]
      exact hn
    · rw [dSet_of_not_has u it.id _ (by simpa using hh)]
      rw [dKeys_append]
      rw [List.nodup_append]
      refine ⟨hn, List.nodup_singleton _, ?_⟩
      intro a ha hb
      have hai : a = it.id := by simpa [dKeys] using hb
      rw [hai] at ha
      exact absurd ((dHas_iff_mem u it.id).mpr ha) (by simpa using hh)
  · intro p hmem
    rcases mem_dSet hmem with h | h
    · subst h
      exact ⟨rfl, h2, h1⟩
    · exact hp p h

theorem uinv_foldl (d : Dossier) (sq : String) :
    ∀ (items : List FetchedItem) (u : List (String × ResultItem)), UInv d u →
      UInv d (items.foldl (fun u it =>
        if it.id != "Desconocido" && !dHas d it.id then dSet u it.id (toResult it sq)
        else u) u) := by
  intro items
  induction items with
  | nil =>
    intro u hu
    simpa using hu
  | cons it rest ih =>
    intro u hu
    rw [List.foldl_cons]
    by_cases hc : (it.id != "Desconocido" && !dHas d it.id) = true
    · rw [if_pos hc]
      rcases Bool.and_eq_true_iff.mp hc with ⟨hc1, hc2⟩
      apply ih
      apply uinv_dSet hu
      · simpa using hc1
      · simpa using hc2
    · rw [if_neg hc]
      exact ih u hu

theorem collect_events (env : Env) (d : Dossier) :
    ∀ (queries : List String) (uniq : List (String × ResultItem)),
      ∀ ev ∈ (collectCandidates env d queries uniq).2, ∃ q, ev = Event.searchReq q := by
  intro queries
  induction queries with
  | nil =>
    intro uniq ev hev
    simp [collectCandidates] at hev
  | cons sq rest ih =>
    intro uniq ev hev
    simp only [collectCandidates] at hev
    cases hs : env.searchBackend (formatQuery sq) with
    | error e =>
      rw [hs] at hev
      simp at hev
      exact ⟨_, hev⟩
    | ok items =>
      rw [hs] at hev
      simp only [List.mem_cons] at hev
      rcases hev with hev | hev
      · exact ⟨_, hev⟩
      · exact ih _ ev hev

theorem collect_ok_uinv (env : Env) (d : Dossier) :
    ∀ (queries : List String) (uniq u2 : List (String × ResultItem)), UInv d uniq →
      (collectCandidates env d queries uniq).1 = .ok u2 → UInv d u2 := by
  intro queries
  induction queries with
  | nil =>
    intro uniq u2 hu h
    simp only [collectCandidates] at h
    cases h
    exact hu
  | cons sq rest ih =>
    intro uniq u2 hu h
    simp only [collectCandidates] at h
    cases hs : env.searchBackend (formatQuery sq) with
    | error e =>
      rw [hs] at h
      cases h
    | ok items =>
      rw [hs] at h
      exact ih _ u2 (uinv_foldl d sq items uniq hu) h

theorem collect_ok_exists (env : Env) (d : Dossier)
    (hsearch : ∀ q, ∃ items, env.searchBackend q = .ok items) :
    ∀ (queries : List String) (uniq : List (String × ResultItem)),
      ∃ u2, (collectCandidates env d queries uniq).1 = .ok u2 := by
  intro queries
  induction queries with
  | nil =>
    intro uniq
    exact ⟨uniq, rfl⟩
  | cons sq rest ih =>
    intro uniq
    rcases hsearch (formatQuery sq) with ⟨items, hs⟩
    simp only [collectCandidates, hs]
    exact ih _

/-! ### Lemmas about the enrichment phase. -/

theorem fetchFullLawText_events (env : Env) (id0 : String) :
    ∀ ev ∈ (fetchFullLawText env id0).2, ev = Event.textReq id0 := by
  intro ev hev
  simp only [fetchFullLawText] at hev
  by_cases hg : (id0 = "" || id0 = "Desconocido") = true
  · rw [if_pos hg] at hev
    simp at hev
  · rw [if_neg hg] at hev
    simpa using hev

theorem processLaws_spec (env : Env) (qt : String) :
    ∀ (laws : List ResultItem) (d : Dossier),
      (∀ l ∈ laws, dHas d l.id = false ∧ l.id ≠ "Desconocido") →
      (laws.map (fun l => l.id)).Nodup →
      dInv d →
      dInv (processLaws env qt laws d).2.1 ∧
      (∀ k, dHas d k = true →
        dGet? (processLaws env qt laws d).2.1 k = dGet? d k ∧
        dHas (processLaws env qt laws d).2.1 k = true) ∧
      (∀ id, (Event.textReq id ∈ (processLaws env qt laws d).2.2 ∨
          Event.snippetReq id ∈ (processLaws env qt laws d).2.2) →
        ∃ l ∈ laws, l.id = id) := by
  intro laws
  induction laws with
  | nil =>
    intro d _ _ hd
    refine ⟨hd, fun k hk => ⟨rfl, hk⟩, ?_⟩
    intro id hid
    simp [processLaws] at hid
  | cons law rest ih =>
    intro d hgood hnodup hd
    have hlaw := hgood law (List.mem_cons_self law rest)
    have hnodup2 : (rest.map (fun l => l.id)).Nodup := by
      simpa using hnodup.of_cons
    simp only [processLaws]
    cases hf : (fetchFullLawText env law.id).1 with
    | error e =>
      try dsimp only
      refine ⟨hd, fun k hk => ⟨rfl, hk⟩, ?_⟩
      intro id hid
      rcases hid with hid | hid <;>
      · have := fetchFullLawText_events env law.id _ hid
        first
        | (exact ⟨law, List.mem_cons_self law rest, by
            cases this
            rfl⟩)
        | (cases this)
    | ok ft =>
      try dsimp only
      by_cases hft : ft = ""
      · rw [if_pos hft]
        have hrest := ih d (fun l hl => hgood l (List.mem_cons_of_mem law hl)) hnodup2 hd
        refine ⟨hrest.1, hrest.2.1, ?_⟩
        intro id hid
        simp only [List.mem_append] at hid
        rcases hid with hid | hid
        · rcases hid with hid | hid
          · have := fetchFullLawText_events env law.id _ hid
            cases this
            exact ⟨law, List.mem_cons_self law rest, rfl⟩
          · rcases hrest.2.2 id (Or.inl hid) with ⟨l, hl, he⟩
            exact ⟨l, List.mem_cons_of_mem law hl, he⟩
        · rcases hid with hid | hid
          · have := fetchFullLawText_events env law.id _ hid
            cases this
          · rcases hrest.2.2 id (Or.inr hid) with ⟨l, hl, he⟩
            exact ⟨l, List.mem_cons_of_mem law hl, he⟩
      · rw [if_neg hft]
        have hset : dSet d law.id (mkDossierItem law ft (env.snippetOracle qt law.id ft)) =
            d ++ [(law.id, mkDossierItem law ft (env.snippetOracle qt law.id ft))] :=
          dSet_of_not_has _ _ _ hlaw.1
        set item := mkDossierItem law ft (env.snippetOracle qt law.id ft) with hitem
        have hd2 : dInv (dSet d law.id item) := by
          rw [hset]
          constructor
          · rw [dKeys_append, List.nodup_append]
            refine ⟨hd.1, List.nodup_singleton _, ?_⟩
            intro a ha hb
            have hai : a = law.id := by simpa [dKeys] using hb
            rw [hai] at ha
            exact absurd ((dHas_iff_mem d law.id).mpr ha) (by simp [hlaw.1])
          · rw [dKeys_append]
            intro hmem
            rcases List.mem_append.mp hmem with hmem | hmem
            · exact hd.2 hmem
            · have : ("Desconocido" : String) = law.id := by simpa [dKeys] using hmem
              exact hlaw.2 this.symm
        have hgood2 : ∀ l ∈ rest, dHas (dSet d law.id item) l.id = false ∧
            l.id ≠ "Desconocido" := by
          intro l hl
          have hg := hgood l (List.mem_cons_of_mem law hl)
          refine ⟨?_, hg.2⟩
          rw [hset, dHas_append]
          have hne : l.id ≠ law.id := by
            intro hc
            have : law.id ∈ rest.map (fun l => l.id) :=
              List.mem_map.mpr ⟨l, hl, hc⟩
            exact (List.nodup_cons.mp hnodup).1 this
          rw [hg.1]
          have hb : (law.id == l.id) = false :=
            beq_eq_false_iff_ne.mpr (fun hc => hne hc.symm)
          simp [dHas, hb]
        have hrest := ih (dSet d law.id item) hgood2 hnodup2 hd2
        refine ⟨hrest.1, ?_, ?_⟩
        · intro k hk
          have hk2 : dHas (dSet d law.id item) k = true := by
            rw [hset, dHas_append, hk]
            simp
          have hr := hrest.2.1 k hk2
          refine ⟨?_, hr.2⟩
          rw [hr.1, hset, dGet?_append_left d _ k hk]
        · intro id hid
          rcases hid with hid | hid
          · simp only [List.mem_append, List.mem_singleton, or_assoc] at hid
            rcases hid with hid | hid | hid
            · have := fetchFullLawText_events env law.id _ hid
              cases this
              exact ⟨law, List.mem_cons_self law rest, rfl⟩
            · cases hid
            · rcases hrest.2.2 id (Or.inl hid) with ⟨l, hl, he⟩
              exact ⟨l, List.mem_cons_of_mem law hl, he⟩
          · simp only [List.mem_append, List.mem_singleton, or_assoc] at hid
            rcases hid with hid | hid | hid
            · have := fetchFullLawText_events env law.id _ hid
              cases this
            · cases hid
              exact ⟨law, List.mem_cons_self law rest, rfl⟩
            · rcases hrest.2.2 id (Or.inr hid) with ⟨l, hl, he⟩
              exact ⟨l, List.mem_cons_of_mem law hl, he⟩

/-- Dossier-growth characterization of the enrichment phase, without any
invariant hypothesis: looked-up entries are either pre-existing or carry
non-empty full text, and every new key comes from a law whose full-text
fetch returned non-empty text. -/
theorem processLaws_fulltext (env : Env) (qt : String) :
    ∀ (laws : List ResultItem) (d : Dossier),
      (∀ k v, dGet? (processLaws env qt laws d).2.1 k = some v →
        dGet? d k = some v ∨ v.fullText ≠ "") ∧
      (∀ k, dHas (processLaws env qt laws d).2.1 k = true →
        dHas d k = true ∨ ∃ l ∈ laws, l.id = k ∧
          ∃ ft, (fetchFullLawText env l.id).1 = .ok ft ∧ ft ≠ "") := by
  intro laws
  induction laws with
  | nil =>
    intro d
    exact ⟨fun k v h => Or.inl h, fun k h => Or.inl h⟩
  | cons law rest ih =>
    intro d
    simp only [processLaws]
    cases hf : (fetchFullLawText env law.id).1 with
    | error e =>
      try dsimp only
      exact ⟨fun k v h => Or.inl h, fun k h => Or.inl h⟩
    | ok ft =>
      try dsimp only
      by_cases hft : ft = ""
      · rw [if_pos hft]
        refine ⟨(ih d).1, ?_⟩
        intro k h
        rcases (ih d).2 k h with h1 | ⟨l, hl, he, hft2⟩
        · exact Or.inl h1
        · exact Or.inr ⟨l, List.mem_cons_of_mem law hl, he, hft2⟩
      · rw [if_neg hft]
        set item := mkDossierItem law ft (env.snippetOracle qt law.id ft) with hitem
        constructor
        · intro k v h
          rcases (ih (dSet d law.id item)).1 k v h with h1 | h1
          · rcases dGet?_dSet_cases d law.id k item h1 with h2 | h2
            · exact Or.inl h2
            · right
              rw [h2, hitem]
              simpa [mkDossierItem] using hft
          · exact Or.inr h1
        · intro k h
          rcases (ih (dSet d law.id item)).2 k h with h1 | ⟨l, hl, he, hft2⟩
          · rcases dHas_dSet_cases d law.id k item h1 with h2 | h2
            · exact Or.inl h2
            · exact Or.inr ⟨law, List.mem_cons_self law rest, h2.symm, ft, hf, hft⟩
          · exact Or.inr ⟨l, List.mem_cons_of_mem law hl, he, hft2⟩

/-- The enrichment phase never fails when the text backend never fails. -/
theorem processLaws_ok (env : Env) (qt : String)
    (htext : ∀ i, ∃ t, env.textBackend i = .ok t) :
    ∀ (laws : List ResultItem) (d : Dossier),
      (processLaws env qt laws d).1 = .ok () := by
  intro laws
  induction laws with
  | nil =>
    intro d
    rfl
  | cons law rest ih =>
    intro d
    simp only [processLaws]
    have hok : ∃ ft, (fetchFullLawText env law.id).1 = .ok ft := by
      simp only [fetchFullLawText]
      by_cases hg : (law.id = "" || law.id = "Desconocido") = true
      · rw [if_pos hg]
        exact ⟨"", rfl⟩
      · rw [if_neg hg]
        exact htext law.id
    rcases hok with ⟨ft, hf⟩
    rw [hf]
    try dsimp only
    by_cases hft : ft = ""
    · rw [if_pos hft]
      exact ih d
    · rw [if_neg hft]
      exact ih _

/-! ### Lemmas about one search iteration. -/

/-- The core single-iteration lemma: starting from a dossier satisfying the
invariant, the iteration preserves it, never rewrites an existing entry,
and fetches full text or snippets only for identifiers that are new and
not the sentinel. -/
theorem searchIteration_spec (env : Env) (queries : List String)
    (cur : List ChatMessage) (d : Dossier) (hd : dInv d) :
    dInv (searchIteration env queries cur d).2.1 ∧
    (∀ k, dHas d k = true →
      dGet? (searchIteration env queries cur d).2.1 k = dGet? d k) ∧
    (∀ id, (Event.textReq id ∈ (searchIteration env queries cur d).2.2 ∨
        Event.snippetReq id ∈ (searchIteration env queries cur d).2.2) →
      dHas d id = false ∧ id ≠ "Desconocido") := by
  simp only [searchIteration]
  cases hc : collectCandidates env d queries [] with
  | mk cr cevs =>
    cases cr with
    | error e =>
      try dsimp only
      refine ⟨hd, fun k _ => rfl, ?_⟩
      intro id hid
      have hall : ∀ ev ∈ cevs, ∃ q, ev = Event.searchReq q := by
        intro ev hev
        have := collect_events env d queries [] ev (by rw [hc]; exact hev)
        exact this
      rcases hid with hid | hid <;>
      · rcases hall _ hid with ⟨q, hq⟩
        cases hq
    | ok uniq =>
      try dsimp only
      have huinv : UInv d uniq := by
        apply collect_ok_uinv env d queries [] uniq
        · exact ⟨List.nodup_nil, by simp⟩
        · rw [hc]
      have hgood : ∀ l ∈ uniq.map (·.2), dHas d l.id = false ∧ l.id ≠ "Desconocido" := by
        intro l hl
        rcases List.mem_map.mp hl with ⟨p, hp, he⟩
        have hq := huinv.2 p hp
        rw [← he, ← hq.1]
        exact ⟨hq.2.1, hq.2.2⟩
      have hnodup : ((uniq.map (·.2)).map (fun l => l.id)).Nodup := by
        rw [List.map_map]
        have : uniq.map (fun p => p.2.id) = uniq.map (·.1) := by
          apply List.map_congr_left
          intro p hp
          exact (huinv.2 p hp).1.symm
        have h3 : uniq.map ((fun (l : ResultItem) => l.id) ∘
            (fun p : String × ResultItem => p.2)) =
            uniq.map (fun p : String × ResultItem => p.2.id) := rfl
        rw [h3, this]
        exact huinv.1
      have hp := processLaws_spec env (lastContent cur) (uniq.map (·.2)) d hgood hnodup hd
      refine ⟨hp.1, fun k hk => (hp.2.1 k hk).1, ?_⟩
      intro id hid
      have hcev : ∀ ev ∈ cevs, ∃ q, ev = Event.searchReq q := by
        intro ev hev
        exact collect_events env d queries [] ev (by rw [hc]; exact hev)
      have hpev : Event.textReq id ∈ (processLaws env (lastContent cur) (uniq.map (·.2)) d).2.2 ∨
          Event.snippetReq id ∈ (processLaws env (lastContent cur) (uniq.map (·.2)) d).2.2 := by
        rcases hid with hid | hid
        · rcases List.mem_append.mp hid with hid | hid
          · rcases hcev _ hid with ⟨q, hq⟩
            cases hq
          · exact Or.inl hid
        · rcases List.mem_append.mp hid with hid | hid
          · rcases hcev _ hid with ⟨q, hq⟩
            cases hq
          · exact Or.inr hid
      rcases hp.2.2 id hpev with ⟨l, hl, he⟩
      rcases he with rfl
      exact hgood l hl

/-- The full-text growth properties lifted to one search iteration. -/
theorem searchIteration_fulltext (env : Env) (queries : List String)
    (cur : List ChatMessage) (d : Dossier) :
    (∀ k v, dGet? (searchIteration env queries cur d).2.1 k = some v →
      dGet? d k = some v ∨ v.fullText ≠ "") ∧
    (∀ k, dHas d k = false → (fetchFullLawText env k).1 = .ok "" →
      dHas (searchIteration env queries cur d).2.1 k = false) := by
  simp only [searchIteration]
  cases hc : collectCandidates env d queries [] with
  | mk cr cevs =>
    cases cr with
    | error e =>
      try dsimp only
      exact ⟨fun k v h => Or.inl h, fun k hk _ => hk⟩
    | ok uniq =>
      try dsimp only
      have hft := processLaws_fulltext env (lastContent cur) (uniq.map (·.2)) d
      refine ⟨hft.1, ?_⟩
      intro k hk hfetch
      by_cases hh : dHas (processLaws env (lastContent cur) (uniq.map (·.2)) d).2.1 k = true
      · rcases hft.2 k hh with h1 | ⟨l, _, he, ft, hf2, hft2⟩
        · rw [h1] at hk
          cases hk
        · rw [he] at hf2
          rw [hfetch] at hf2
          cases hf2
          exact absurd rfl hft2
      · simpa using hh

/-! ### Lemmas about the bounded search loop. -/

/-- Recognizer for regular (attempt-0) planning calls, used to count
oracle-driven search iterations. -/
def isPlan0 : Event → Bool
  | .planReq _ _ 0 => true
  | _ => false

/-- Number of regular planning calls in an event trace: one per executed
loop iteration. -/
def countPlan0 (evs : List Event) : Nat :=
  evs.countP isPlan0

theorem processLaws_events_shape (env : Env) (qt : String) :
    ∀ (laws : List ResultItem) (d : Dossier),
      ∀ ev ∈ (processLaws env qt laws d).2.2,
        (∃ i, ev = Event.textReq i) ∨ (∃ i, ev = Event.snippetReq i) := by
  intro laws
  induction laws with
  | nil =>
    intro d ev hev
    simp [processLaws] at hev
  | cons law rest ih =>
    intro d ev hev
    simp only [processLaws] at hev
    cases hf : (fetchFullLawText env law.id).1 with
    | error e =>
      rw [hf] at hev
      dsimp only at hev
      exact Or.inl ⟨law.id, fetchFullLawText_events env law.id ev hev⟩
    | ok ft =>
      rw [hf] at hev
      dsimp only at hev
      by_cases hft : ft = ""
      · rw [if_pos hft] at hev
        rcases List.mem_append.mp hev with hev | hev
        · exact Or.inl ⟨law.id, fetchFullLawText_events env law.id ev hev⟩
        · exact ih d ev hev
      · rw [if_neg hft] at hev
        simp only [List.mem_append, List.mem_singleton, or_assoc] at hev
        rcases hev with hev | hev | hev
        · exact Or.inl ⟨law.id, fetchFullLawText_events env law.id ev hev⟩
        · exact Or.inr ⟨law.id, hev⟩
        · exact ih _ ev hev

theorem searchIteration_countPlan0 (env : Env) (queries : List String)
    (cur : List ChatMessage) (d : Dossier) :
    countPlan0 (searchIteration env queries cur d).2.2 = 0 := by
  rw [countPlan0, List.countP_eq_zero]
  intro ev hev
  simp only [searchIteration] at hev
  cases hc : collectCandidates env d queries [] with
  | mk cr cevs =>
    rw [hc] at hev
    cases cr with
    | error e =>
      dsimp only at hev
      rcases collect_events env d queries [] ev (by rw [hc]; exact hev) with ⟨q, hq⟩
      cases hq
      simp [isPlan0]
    | ok uniq =>
      dsimp only at hev
      rcases List.mem_append.mp hev with hev | hev
      · rcases collect_events env d queries [] ev (by rw [hc]; exact hev) with ⟨q, hq⟩
        cases hq
        simp [isPlan0]
      · rcases processLaws_events_shape env (lastContent cur) (uniq.map (·.2)) d ev hev with
          ⟨i, hi⟩ | ⟨i, hi⟩ <;>
        · cases hi
          simp [isPlan0]

theorem loop_countPlan0 (env : Env) :
    ∀ (n : Nat) (queries : List String) (cur ui : List ChatMessage) (d : Dossier),
      countPlan0 (executeSearchLoopAux env n queries cur ui d).2.2.2 ≤ n := by
  intro n
  induction n with
  | zero =>
    intro queries cur ui d
    simp [executeSearchLoopAux, countPlan0]
  | succ n ih =>
    intro queries cur ui d
    simp only [executeSearchLoopAux]
    cases hit : (searchIteration env queries cur d).1 with
    | error e =>
      try dsimp only
      rw [show countPlan0 (searchIteration env queries cur d).2.2 = 0 from
        searchIteration_countPlan0 env queries cur d]
      omega
    | ok u =>
      have hc0 := searchIteration_countPlan0 env queries cur d
      cases hp : analyzeAndPlanNextStep env cur (dVals (searchIteration env queries cur d).2.1) 0 with
      | error e =>
        try dsimp only
        rw [countPlan0, List.countP_append]
        rw [countPlan0] at hc0
        simp [hc0, List.countP_cons, isPlan0]
      | ok p =>
        try dsimp only
        cases p with
        | respond ans refs =>
          try dsimp only
          rw [countPlan0, List.countP_append]
          rw [countPlan0] at hc0
          simp [hc0, List.countP_cons, isPlan0]
        | searchMore qs r =>
          try dsimp only
          rw [countPlan0, List.countP_append, List.countP_append]
          rw [countPlan0] at hc0
          have hrec := ih qs cur (ui ++ [deepenMsg r]) (searchIteration env queries cur d).2.1
          rw [countPlan0] at hrec
          simp [hc0, List.countP_cons, List.countP_nil, isPlan0]
          omega
        | clarify q =>
          try dsimp only
          cases hp2 : analyzeAndPlanNextStep env cur (dVals (searchIteration env queries cur d).2.1) 99 with
          | error e =>
            try dsimp only
            rw [countPlan0, List.countP_append]
            rw [countPlan0] at hc0
            simp [hc0, List.countP_cons, isPlan0]
          | ok p2 =>
            try dsimp only
            cases p2 <;>
            · try dsimp only
              rw [countPlan0, List.countP_append]
              rw [countPlan0] at hc0
              simp [hc0, List.countP_cons, isPlan0]
        | propose prop qs =>
          try dsimp only
          cases hp2 : analyzeAndPlanNextStep env cur (dVals (searchIteration env queries cur d).2.1) 99 with
          | error e =>
            try dsimp only
            rw [countPlan0, List.countP_append]
            rw [countPlan0] at hc0
            simp [hc0, List.countP_cons, isPlan0]
          | ok p2 =>
            try dsimp only
            cases p2 <;>
            · try dsimp only
              rw [countPlan0, List.countP_append]
              rw [countPlan0] at hc0
              simp [hc0, List.countP_cons, isPlan0]

/-- One search iteration succeeds whenever the search and text backends
never fail. -/
theorem searchIteration_ok (env : Env)
    (hsearch : ∀ q, ∃ items, env.searchBackend q = .ok items)
    (htext : ∀ i, ∃ t, env.textBackend i = .ok t)
    (queries : List String) (cur : List ChatMessage) (d : Dossier) :
    (searchIteration env queries cur d).1 = .ok () := by
  simp only [searchIteration]
  cases hc : collectCandidates env d queries [] with
  | mk cr cevs =>
    rcases collect_ok_exists env d hsearch queries [] with ⟨u2, hcol⟩
    rw [hc] at hcol
    dsimp only at hcol
    cases cr with
    | error e => cases hcol
    | ok uniq =>
      try dsimp only
      exact processLaws_ok env (lastContent cur) htext (uniq.map (·.2)) d

/-- A planning oracle that always answers SEARCH_MORE drives the bounded
loop into the terminal loop-budget failure. -/
theorem loop_searchMore_fails (env : Env)
    (hplan : ∀ ms dv a, ∃ qs r,
      env.planOracle ms dv a = .ok (.searchMore qs r))
    (hsearch : ∀ q, ∃ items, env.searchBackend q = .ok items)
    (htext : ∀ i, ∃ t, env.textBackend i = .ok t) :
    ∀ (n : Nat) (queries : List String) (cur ui : List ChatMessage) (d : Dossier),
      (executeSearchLoopAux env n queries cur ui d).1 = .error loopFailText := by
  intro n
  induction n with
  | zero =>
    intro queries cur ui d
    rfl
  | succ n ih =>
    intro queries cur ui d
    simp only [executeSearchLoopAux]
    rw [searchIteration_ok env hsearch htext queries cur d]
    try dsimp only
    rcases hplan cur (dVals (searchIteration env queries cur d).2.1) 0 with ⟨qs, r, hpo⟩
    rw [show analyzeAndPlanNextStep env cur (dVals (searchIteration env queries cur d).2.1) 0 =
      .ok (.searchMore qs r) from by simp [analyzeAndPlanNextStep, hpo]]
    try dsimp only
    exact ih qs cur (ui ++ [deepenMsg r]) (searchIteration env queries cur d).2.1

/-- The loop preserves the dossier invariant, whatever the oracles do. -/
theorem loop_dInv (env : Env) :
    ∀ (n : Nat) (queries : List String) (cur ui : List ChatMessage) (d : Dossier),
      dInv d → dInv (executeSearchLoopAux env n queries cur ui d).2.2.1 := by
  intro n
  induction n with
  | zero =>
    intro queries cur ui d hd
    exact hd
  | succ n ih =>
    intro queries cur ui d hd
    have hone := (searchIteration_spec env queries cur d hd).1
    simp only [executeSearchLoopAux]
    cases hit : (searchIteration env queries cur d).1 with
    | error e =>
      try dsimp only
      exact hone
    | ok u =>
      cases hp : analyzeAndPlanNextStep env cur (dVals (searchIteration env queries cur d).2.1) 0 with
      | error e =>
        try dsimp only
        exact hone
      | ok p =>
        try dsimp only
        cases p with
        | respond ans refs =>
          try dsimp only
          exact hone
        | searchMore qs r =>
          try dsimp only
          exact ih qs cur (ui ++ [deepenMsg r]) (searchIteration env queries cur d).2.1 hone
        | clarify q =>
          try dsimp only
          cases hp2 : analyzeAndPlanNextStep env cur (dVals (searchIteration env queries cur d).2.1) 99 with
          | error e =>
            try dsimp only
            exact hone
          | ok p2 =>
            try dsimp only
            cases p2 <;>
            · try dsimp only
              exact hone
        | propose prop qs =>
          try dsimp only
          cases hp2 : analyzeAndPlanNextStep env cur (dVals (searchIteration env queries cur d).2.1) 99 with
          | error e =>
            try dsimp only
            exact hone
          | ok p2 =>
            try dsimp only
            cases p2 <;>
            · try dsimp only
              exact hone

/-! ### Lemmas about the message handler. -/

theorem handler_events_not_awaiting (env : Env) (s : AppState) (m : String)
    (hA : lastAwaiting s = false) :
    (handleSendMessage env s m).2 =
      [Event.planReq (s.chatMessages ++ [userMsg m])
        (dVals (if lastClarification s then s.dossier else []))
        (if lastClarification s then s.clarificationAttempt + 1 else 0)] := by
  simp only [handleSendMessage, hA, Bool.false_eq_true, if_false]
  by_cases hlc : lastClarification s = true
  · simp only [hlc, eq_self_iff_true, if_true]
    split
    · rfl
    · rfl
  · have hlc2 : lastClarification s = false := by simpa using hlc
    simp only [hlc2, Bool.false_eq_true, if_false]
    split
    · rfl
    · rfl

theorem handler_events_feedback (env : Env) (s : AppState) (m : String)
    (hA : lastAwaiting s = true)
    (hnc : confirmTest m = false ∨ s.proposedPlan = none) :
    (handleSendMessage env s m).2 =
      [Event.planReq (s.chatMessages ++ [userMsg m]) (dVals s.dossier)
        s.clarificationAttempt] := by
  simp only [handleSendMessage, hA, if_true]
  cases hpp : s.proposedPlan with
  | none =>
    cases hana : analyzeAndPlanNextStep env (s.chatMessages ++ [userMsg m])
        (dVals s.dossier) s.clarificationAttempt with
    | ok p => rfl
    | error e => rfl
  | some plan =>
    have hcf : confirmTest m = false := by
      rcases hnc with h | h
      · exact h
      · rw [hpp] at h
        cases h
    rw [hcf]
    cases hana : analyzeAndPlanNextStep env (s.chatMessages ++ [userMsg m])
        (dVals s.dossier) s.clarificationAttempt with
    | ok p => rfl
    | error e => rfl

theorem handler_confirmed_pending (env : Env) (s : AppState) (m : String)
    (hA : lastAwaiting s = true) (hc : confirmTest m = true)
    (qs : List String) (hpp : s.proposedPlan = some qs) :
    (handleSendMessage env s m).1.proposedPlan = some qs := by
  simp only [handleSendMessage, hA, if_true, hpp, hc]
  cases hr : (executeSearchLoop env qs (s.chatMessages ++ [userMsg m])
      ((s.chatMessages ++ [userMsg m]) ++
        [{ role := .model, content := "¡Entendido! Iniciando investigación...",
           isLoading := true }]) s.dossier).1 with
  | ok u => simp [hpp]
  | error e => simp [hpp]

theorem handler_search_gated (env : Env) (s : AppState) (m : String) :
    ∀ q, Event.searchReq q ∈ (handleSendMessage env s m).2 →
      lastAwaiting s = true ∧ confirmTest m = true ∧ s.proposedPlan.isSome = true := by
  intro q hq
  by_cases hA : lastAwaiting s = true
  · cases hpp : s.proposedPlan with
    | none =>
      rw [handler_events_feedback env s m hA (Or.inr hpp)] at hq
      simp at hq
    | some plan =>
      by_cases hc : confirmTest m = true
      · exact ⟨hA, hc, by simp [hpp]⟩
      · rw [handler_events_feedback env s m hA (Or.inl (by simpa using hc))] at hq
        simp at hq
  · have hA2 : lastAwaiting s = false := by simpa using hA
    rw [handler_events_not_awaiting env s m hA2] at hq
    simp at hq

theorem handler_clarify_surfaced (env : Env) (s : AppState) (m q : String)
    (hA : lastAwaiting s = false) (hlc : lastClarification s = true)
    (hpo : env.planOracle (s.chatMessages ++ [userMsg m]) (dVals s.dossier)
      (s.clarificationAttempt + 1) = .ok (.clarify q)) :
    (handleSendMessage env s m).1.chatMessages =
      s.chatMessages ++ [userMsg m, clarifyMsg q] ∧
    (handleSendMessage env s m).1.clarificationAttempt = s.clarificationAttempt + 1 := by
  have hana : analyzeAndPlanNextStep env (s.chatMessages ++ [userMsg m])
      (dVals s.dossier) (s.clarificationAttempt + 1) = .ok (.clarify q) := by
    simp [analyzeAndPlanNextStep, hpo]
  simp only [handleSendMessage, hA, Bool.false_eq_true, if_false, hlc,
    eq_self_iff_true, if_true, hana]
  try dsimp only [handleAiPlan]
  constructor
  · simp [clarifyMsg]
  · trivial

/-! ### Shape of extracted date tokens. -/

theorem grabDate_shape {cs t : List Char} (h : grabDate cs = some t) :
    dateShape t = true := by
  unfold grabDate at h
  split at h
  · try dsimp only at h
    split at h
    · cases h
      assumption
    · cases h
  · cases h

theorem firstDateTok_shape :
    ∀ {cs t : List Char}, firstDateTok cs = some t → dateShape t = true := by
  intro cs
  induction cs with
  | nil =>
    intro t h
    cases h
  | cons x rest ih =>
    intro t h
    simp only [firstDateTok] at h
    cases hg : grabDate (x :: rest) with
    | some tok =>
      rw [hg] at h
      cases h
      exact grabDate_shape hg
    | none =>
      rw [hg] at h
      exact ih h

theorem findDateTags_shape (block : String) :
    ∀ tags, findDateTags block tags ≠ "No informado" →
      dateShape (findDateTags block tags).toList = true := by
  intro tags
  induction tags with
  | nil =>
    intro h
    exact absurd rfl h
  | cons tag rest ih =>
    intro h
    simp only [findDateTags] at h ⊢
    cases hv : findValueIn tag block with
    | none =>
      rw [hv] at h
      try dsimp only at h ⊢
      exact ih h
    | some content =>
      rw [hv] at h
      try dsimp only at h ⊢
      by_cases hce : content = ""
      · rw [if_pos hce] at h ⊢
        exact ih h
      · rw [if_neg hce] at h ⊢
        cases hft : firstDateTok content.toList with
        | some tok =>
          rw [hft] at h
          try dsimp only at h ⊢
          exact firstDateTok_shape hft
        | none =>
          rw [hft] at h
          try dsimp only at h ⊢
          exact ih h

/-! ### Concrete fixtures used by witnesses and counterexamples. -/

/-- A minimal candidate record with the given identifier. -/
def fx (i : String) : FetchedItem :=
  { id := i, title := "t" ++ i, publicationDate := "No informado",
    effectiveDate := "No informado", link := "l" ++ i, lawNumber := none }

/-- Environment whose oracle immediately responds. -/
def envRespond : Env :=
  { planOracle := fun _ _ _ => .ok (.respond "ans" [])
    searchBackend := fun _ => .ok []
    textBackend := fun _ => .ok ""
    snippetOracle := fun _ _ _ => [] }

/-- State whose last turn awaits confirmation with a pending plan. -/
def sAwait : AppState :=
  { chatMessages := [{ role := .model, content := "prop", isAwaitingConfirmation := true }]
    dossier := []
    clarificationAttempt := 0
    proposedPlan := some ["q"]
    error := none }

/-- Environment whose oracle always asks for clarification. -/
def envClarify : Env :=
  { planOracle := fun _ _ _ => .ok (.clarify "pregunta")
    searchBackend := fun _ => .ok []
    textBackend := fun _ => .ok ""
    snippetOracle := fun _ _ _ => [] }

/-- State whose last turn is a clarification request, one attempt in. -/
def sClar : AppState :=
  { chatMessages := [{ role := .model, content := "clar", isClarificationRequest := true }]
    dossier := []
    clarificationAttempt := 1
    proposedPlan := none
    error := none }

/-- Environment whose oracle always wants yet another search. -/
def envLoop : Env :=
  { planOracle := fun _ _ _ => .ok (.searchMore ["x"] "rr")
    searchBackend := fun _ => .ok []
    textBackend := fun _ => .ok ""
    snippetOracle := fun _ _ _ => [] }

/-- Environment returning two fresh candidates plus a sentinel one; full
text exists only for law A. -/
def envTwoLaws : Env :=
  { planOracle := fun _ _ _ => .ok (.respond "a" [])
    searchBackend := fun _ => .ok [fx "A", fx "B", fx "Desconocido"]
    textBackend := fun i => .ok (if i = "A" then "texto" else "")
    snippetOracle := fun _ _ _ => ["s"] }

/-- The dossier record envTwoLaws stores for law A. -/
def itemA : DossierItem :=
  { toResultItem := { toFetchedItem := fx "A", sourceQueries := ["q"] }
    fullText := "texto"
    snippets := ["s"] }

/-- Default reference for positional indexing. -/
def refDefault : AiReference :=
  { id := "", lawNumber := none, title := "", fragment := "",
    publicationDate := "", effectiveDate := "", link := "", sourceQueries := [] }

/-! ### Claim theorems. -/

/-- C5 (counterexample): the source date matcher accepts `01-123-2020`
(`\w{3}` middle), while the claim mandates a three-letter month
abbreviation, under which no tag yields a result and the field would be the
sentinel. -/
theorem c5_counterexample :
    findDate "<FechaPublicacion>01-123-2020</FechaPublicacion>" "Publicación" =
      "01-123-2020" ∧
    findDateSpec "<FechaPublicacion>01-123-2020</FechaPublicacion>" "Publicación" =
      "No informado" ∧
    ("01-123-2020" : String) ≠ "No informado" :=
  ⟨by decide, by decide, by decide⟩

/-- C5 (amended): date extraction tries the ordered tag list for each date
kind; to each tag content it applies the token matcher two digits, hyphen,
three word characters, hyphen, four digits, first match winning (the
claimed example holds); any non-sentinel result has that token shape; with
no tag match the result is the sentinel, never re-derived from free text
elsewhere in the block; and the tag order decides ties. -/
theorem c5_date_extraction :
    (findDate "<FechaPublicacion>  12-MAR-2020 extra text</FechaPublicacion>"
      "Publicación" = "12-MAR-2020") ∧
    (∀ block kw, findDate block kw ≠ "No informado" →
      dateShape (findDate block kw).toList = true) ∧
    (findDate "<Otro>12-MAR-2020</Otro><FechaPublicacion>sin fecha 99</FechaPublicacion>"
      "Publicación" = "No informado") ∧
    (findDate "<Nada>12-MAR-2020</Nada>" "Publicación" = "No informado") ∧
    (findDate "<InicioVigencia>nada</InicioVigencia><FechaVigencia>02-FEB-2002</FechaVigencia>"
      "Vigencia|Inicio" = "02-FEB-2002") ∧
    (findDate "<InicioVigencia>01-ENE-2000</InicioVigencia><FechaVigencia>02-FEB-2002</FechaVigencia>"
      "Vigencia|Inicio" = "01-ENE-2000") := by
  refine ⟨by decide, ?_, by decide, by decide, by decide, by decide⟩
  intro block kw h
  exact findDateTags_shape block (dateTagsFor kw) h

/-- C5 witness: the shape conjunct applied to the claimed example input. -/
theorem c5_date_extraction_witness :
    dateShape (findDate "<FechaPublicacion>  12-MAR-2020 extra text</FechaPublicacion>"
      "Publicación").toList = true :=
  c5_date_extraction.2.1 "<FechaPublicacion>  12-MAR-2020 extra text</FechaPublicacion>"
    "Publicación" (by decide)

/-- The markdown-fenced oracle response used to exhibit the missing
recovery step. -/
def fencedText : String := "\x60\x60\x60json\n[\x22a\x22]\n\x60\x60\x60"

/-- A parse stand-in that succeeds exactly on the unfenced JSON array. -/
def parseProbe : String → Option (List String) :=
  fun t => if t = "[\x22a\x22]" then some ["a"] else none

/-- C7 (counterexample): on a fenced response whose unfenced body parses,
the source parses the raw text once, makes no recovery attempt and returns
the empty sequence, while the specified recovery behaviour would strip the
fence, retry once and succeed. -/
theorem c7_counterexample :
    extractRelevantSnippets (.ok (some fencedText)) parseProbe = ([], [fencedText]) ∧
    extractRelevantSnippetsSpec (.ok (some fencedText)) parseProbe =
      (["a"], [fencedText, "[\x22a\x22]"]) :=
  ⟨by decide, by decide⟩

/-- C7 (amended): `extractRelevantSnippets` never propagates an error —
upstream failure, a missing payload, or invalid JSON all yield the empty
sequence — and the raw response text is handed to the JSON parser at most
once: no code-fence recovery attempt is made. -/
theorem c7_snippet_error_handling (upstream : Except String (Option String))
    (parse : String → Option (List String)) :
    ((extractRelevantSnippets upstream parse).2.length ≤ 1) ∧
    (∀ e, upstream = .error e → extractRelevantSnippets upstream parse = ([], [])) ∧
    (upstream = .ok none → extractRelevantSnippets upstream parse = ([], [])) ∧
    (∀ t, upstream = .ok (some t) → parse t = none →
      (extractRelevantSnippets upstream parse).1 = []) := by
  refine ⟨?_, ?_, ?_, ?_⟩
  · cases upstream with
    | error e => simp [extractRelevantSnippets]
    | ok o =>
      cases o with
      | none => simp [extractRelevantSnippets]
      | some t =>
        simp only [extractRelevantSnippets]
        by_cases ht : t = ""
        · simp [ht]
        · rw [if_neg ht]
          cases hp : parse t with
          | some arr => simp
          | none => simp
  · intro e he
    rw [he]
    rfl
  · intro he
    rw [he]
    rfl
  · intro t ht hp
    rw [ht]
    simp only [extractRelevantSnippets]
    by_cases hte : t = ""
    · simp [hte]
    · rw [if_neg hte, hp]

/-- C7 witness: a failing parse on a concrete payload yields the empty
sequence. -/
theorem c7_snippet_error_handling_witness :
    ((extractRelevantSnippets (.ok (some "x")) (fun _ => none)).2.length ≤ 1) ∧
    (extractRelevantSnippets (.ok (some "x")) (fun _ => none)).1 = [] :=
  ⟨(c7_snippet_error_handling (.ok (some "x")) (fun _ => none)).1,
   (c7_snippet_error_handling (.ok (some "x")) (fun _ => none)).2.2.2 "x" rfl rfl⟩

/-- C8: a well-formed candidate response without any document marker parses
to zero results, except that a short payload containing an error marker
escalates to a backend error carrying the server text. -/
theorem c8_zero_results_vs_error (xml : String)
    (hwf : trimmedStartsLt xml = true)
    (hnm : containsSub "<Norma" xml = false)
    (hnl : containsSub "<Listado" xml = false) :
    parseCandidatesResponse xml =
      (if xml.length < 200 && containsSub "error" (jsLower xml) then
        .error ("El servidor de LeyChile devolvió un error: " ++ xml)
      else .ok []) := by
  simp only [parseCandidatesResponse, hwf, hnm, hnl]
  simp

/-- C8 witness: a short error banner escalates; a marker-free non-error
response yields zero results. -/
theorem c8_zero_results_vs_error_witness :
    parseCandidatesResponse "<resp>Error interno</resp>" =
      .error "El servidor de LeyChile devolvió un error: <resp>Error interno</resp>" ∧
    parseCandidatesResponse "<foo/>" = .ok [] := by
  constructor
  · rw [c8_zero_results_vs_error "<resp>Error interno</resp>" (by decide) (by decide)
      (by decide)]
    rfl
  · rw [c8_zero_results_vs_error "<foo/>" (by decide) (by decide) (by decide)]
    rfl

/-- C9: fetching full text for the empty or sentinel identifier returns
empty text immediately, with no network request issued. -/
theorem c9_fulltext_guard (env : Env) :
    fetchFullLawText env "" = (.ok "", []) ∧
    fetchFullLawText env "Desconocido" = (.ok "", []) :=
  ⟨rfl, rfl⟩

/-- C1 (counterexample): after a confirmed execution the pending plan is
NOT cleared — a search was executed (a search request was emitted) yet the
state still holds the pending plan. -/
theorem c1_counterexample :
    Event.searchReq "q" ∈ (handleSendMessage envRespond sAwait "sí").2 ∧
    (handleSendMessage envRespond sAwait "sí").1.proposedPlan = some ["q"] ∧
    (handleSendMessage envRespond sAwait "sí").1.proposedPlan ≠ none :=
  ⟨by decide, by decide, by decide⟩

/-- C1 (amended): a search-backend request is emitted only when the
previous turn awaits confirmation, the trimmed message starts with an
affirmation token and a pending plan exists; while awaiting, a
non-matching message instead re-invokes the planning oracle once, with the
full turn history and the current attempt counter; and on execution the
pending plan is left in place rather than cleared. -/
theorem c1_confirmation_gating (env : Env) (s : AppState) (m : String) :
    (∀ q, Event.searchReq q ∈ (handleSendMessage env s m).2 →
      lastAwaiting s = true ∧ confirmTest m = true ∧ s.proposedPlan.isSome = true) ∧
    (lastAwaiting s = true → (confirmTest m = false ∨ s.proposedPlan = none) →
      (handleSendMessage env s m).2 =
        [Event.planReq (s.chatMessages ++ [userMsg m]) (dVals s.dossier)
          s.clarificationAttempt]) ∧
    (lastAwaiting s = true → confirmTest m = true → ∀ qs, s.proposedPlan = some qs →
      (handleSendMessage env s m).1.proposedPlan = some qs) :=
  ⟨handler_search_gated env s m,
   fun hA hnc => handler_events_feedback env s m hA hnc,
   fun hA hc qs hpp => handler_confirmed_pending env s m hA hc qs hpp⟩

/-- C1 witness: the three conjuncts exercised on concrete runs — a search
emitted under confirmation implies the gate conditions; a rejection emits
exactly one planning call with the full history; a confirmed run keeps the
pending plan. -/
theorem c1_confirmation_gating_witness :
    (lastAwaiting sAwait = true ∧ confirmTest "sí" = true ∧
      sAwait.proposedPlan.isSome = true) ∧
    (handleSendMessage envRespond sAwait "no, mejor otra cosa").2 =
      [Event.planReq (sAwait.chatMessages ++ [userMsg "no, mejor otra cosa"])
        (dVals sAwait.dossier) sAwait.clarificationAttempt] ∧
    (handleSendMessage envRespond sAwait "sí").1.proposedPlan = some ["q"] :=
  ⟨(c1_confirmation_gating envRespond sAwait "sí").1 "q" (by decide),
   (c1_confirmation_gating envRespond sAwait "no, mejor otra cosa").2.1 (by decide)
     (Or.inl (by decide)),
   (c1_confirmation_gating envRespond sAwait "sí").2.2 (by decide) (by decide)
     ["q"] (by decide)⟩

/-- C2: the dossier invariant — no sentinel key, no duplicate keys — holds
for the empty dossier, is preserved by every search iteration and by the
whole bounded loop; existing entries are never rewritten; and full-text or
snippet requests are issued only for identifiers that are new and not the
sentinel. -/
theorem c2_dossier_invariant (env : Env) (queries : List String)
    (cur : List ChatMessage) (d : Dossier) (hd : dInv d) :
    dInv ([] : Dossier) ∧
    dInv (searchIteration env queries cur d).2.1 ∧
    (∀ k, dHas d k = true →
      dGet? (searchIteration env queries cur d).2.1 k = dGet? d k) ∧
    (∀ id, (Event.textReq id ∈ (searchIteration env queries cur d).2.2 ∨
        Event.snippetReq id ∈ (searchIteration env queries cur d).2.2) →
      dHas d id = false ∧ id ≠ "Desconocido") ∧
    (∀ n ui, dInv (executeSearchLoopAux env n queries cur ui d).2.2.1) := by
  have h := searchIteration_spec env queries cur d hd
  exact ⟨⟨List.nodup_nil, by simp [dKeys]⟩, h.1, h.2.1, h.2.2,
    fun n ui => loop_dInv env n queries cur ui d hd⟩

/-- C2 witness: on a concrete iteration over a dossier already holding X,
the invariant holds afterwards, X keeps its stored entry, and the fetched
identifier B was new and not the sentinel. -/
theorem c2_dossier_invariant_witness :
    dInv (searchIteration envTwoLaws ["q"] [] []).2.1 ∧
    (dHas ([] : Dossier) "B" = false ∧ "B" ≠ "Desconocido") :=
  ⟨(c2_dossier_invariant envTwoLaws ["q"] [] []
      ⟨List.nodup_nil, by simp [dKeys]⟩).2.1,
   (c2_dossier_invariant envTwoLaws ["q"] [] []
      ⟨List.nodup_nil, by simp [dKeys]⟩).2.2.2.1 "B" (Or.inl (by decide))⟩

/-- C3 (counterexample): with the attempt counter already at 1, answering a
clarification raises it to 2, and a CLARIFY plan returned by the oracle in
that state is still surfaced as a clarification turn. -/
theorem c3_counterexample :
    1 < (handleSendMessage envClarify sClar "dato").1.clarificationAttempt ∧
    (((handleSendMessage envClarify sClar "dato").1.chatMessages.getLast?).map
      (·.isClarificationRequest)).getD false = true :=
  ⟨by decide, by decide⟩

/-- C3 (amended): the anti-loop rule lives only in the oracle prompt; the
caller performs no coercion.  When the user answers a clarification with
the counter already at least 1, the incremented counter exceeds 1, and a
CLARIFY plan received from the oracle is surfaced as a clarification turn
exactly as in the ordinary case. -/
theorem c3_clarify_not_coerced (env : Env) (s : AppState) (m q : String)
    (hA : lastAwaiting s = false) (hlc : lastClarification s = true)
    (hgt : 1 ≤ s.clarificationAttempt)
    (hpo : env.planOracle (s.chatMessages ++ [userMsg m]) (dVals s.dossier)
      (s.clarificationAttempt + 1) = .ok (.clarify q)) :
    (handleSendMessage env s m).1.chatMessages =
      s.chatMessages ++ [userMsg m, clarifyMsg q] ∧
    (handleSendMessage env s m).1.clarificationAttempt = s.clarificationAttempt + 1 ∧
    1 < (handleSendMessage env s m).1.clarificationAttempt := by
  have h := handler_clarify_surfaced env s m q hA hlc hpo
  refine ⟨h.1, h.2, ?_⟩
  rw [h.2]
  omega

/-- C3 witness: the amended behaviour on the concrete violating run. -/
theorem c3_clarify_not_coerced_witness :
    (handleSendMessage envClarify sClar "dato").1.chatMessages =
      sClar.chatMessages ++ [userMsg "dato", clarifyMsg "pregunta"] ∧
    (handleSendMessage envClarify sClar "dato").1.clarificationAttempt =
      sClar.clarificationAttempt + 1 ∧
    1 < (handleSendMessage envClarify sClar "dato").1.clarificationAttempt :=
  c3_clarify_not_coerced envClarify sClar "dato" "pregunta" (by decide) (by decide)
    (by decide) rfl

/-- C4: the ceiling is the constant 2; an oracle that keeps returning
SEARCH_MORE (with working backends) drives every confirmed execution into
the terminal loop-budget failure, whose message is surfaced verbatim by the
handler; and for any environment at most the fuelled number of
oracle-driven iterations run — in particular at most 2 from the entry
point. -/
theorem c4_loop_budget (env : Env)
    (hplan : ∀ ms dv a, ∃ qs r, env.planOracle ms dv a = .ok (.searchMore qs r))
    (hsearch : ∀ q, ∃ items, env.searchBackend q = .ok items)
    (htext : ∀ i, ∃ t, env.textBackend i = .ok t) :
    MAX_SEARCH_LOOPS = 2 ∧
    loopFailText =
      "No pude encontrar una respuesta satisfactoria después de múltiples búsquedas." ∧
    (∀ queries cur ui d,
      (executeSearchLoop env queries cur ui d).1 = .error loopFailText) ∧
    (∀ (env2 : Env) (n : Nat) qs msgs ui d,
      countPlan0 (executeSearchLoopAux env2 n qs msgs ui d).2.2.2 ≤ n) ∧
    (∀ (s : AppState) (m : String), lastAwaiting s = true → confirmTest m = true →
      s.proposedPlan.isSome = true →
      (handleSendMessage env s m).1.error = some loopFailText ∧
      ((handleSendMessage env s m).1.chatMessages.getLast?).map (·.content) =
        some ("Lo siento, ocurrió un error: " ++ loopFailText)) := by
  refine ⟨rfl, rfl, ?_, ?_, ?_⟩
  · intro queries cur ui d
    exact loop_searchMore_fails env hplan hsearch htext MAX_SEARCH_LOOPS queries cur ui d
  · intro env2 n qs msgs ui d
    exact loop_countPlan0 env2 n qs msgs ui d
  · intro s m hA hc hps
    rcases Option.isSome_iff_exists.mp hps with ⟨qs, hpp⟩
    have hr : (executeSearchLoop env qs (s.chatMessages ++ [userMsg m])
        ((s.chatMessages ++ [userMsg m]) ++
          [{ role := .model, content := "¡Entendido! Iniciando investigación...",
             isLoading := true }]) s.dossier).1 = .error loopFailText := by
      rw [executeSearchLoop]
      exact loop_searchMore_fails env hplan hsearch htext MAX_SEARCH_LOOPS _ _ _ _
    simp only [handleSendMessage, hA, if_true, hpp, hc]
    rw [hr]
    constructor
    · rfl
    · rw [show ∀ (l : List ChatMessage) (a : ChatMessage), (l ++ [a]).getLast? = some a
        from fun l a => List.getLast?_concat l]
      rfl

/-- C4 witness: the concrete always-SEARCH_MORE environment exhausts the
budget and surfaces the failure. -/
theorem c4_loop_budget_witness :
    (executeSearchLoop envLoop ["q"] [] [] []).1 = .error loopFailText ∧
    countPlan0 (executeSearchLoop envLoop ["q"] [] [] []).2.2.2 ≤ 2 ∧
    (handleSendMessage envLoop sAwait "sí").1.error = some loopFailText :=
  ⟨(c4_loop_budget envLoop (fun _ _ _ => ⟨["x"], "rr", rfl⟩)
      (fun _ => ⟨[], rfl⟩) (fun _ => ⟨"", rfl⟩)).2.2.1 ["q"] [] [] [],
   (c4_loop_budget envLoop (fun _ _ _ => ⟨["x"], "rr", rfl⟩)
      (fun _ => ⟨[], rfl⟩) (fun _ => ⟨"", rfl⟩)).2.2.2.1 envLoop 2 ["q"] [] [] [],
   ((c4_loop_budget envLoop (fun _ _ _ => ⟨["x"], "rr", rfl⟩)
      (fun _ => ⟨[], rfl⟩) (fun _ => ⟨"", rfl⟩)).2.2.2.2 sAwait "sí" (by decide)
      (by decide) (by decide)).1⟩

/-- C6: reference reconciliation is positional and per-reference: each
output keeps the oracle identifier, title and fragment of the input at the
same position; when a dossier record matches the identifier, law number,
dates, link and source queries are overwritten from it; otherwise the
reference passes through unchanged. -/
theorem c6_reference_reconciliation (dossier : List DossierItem)
    (refs : List AiReference) (i : Nat) (hi : i < refs.length) :
    (reconcileReferences dossier refs).length = refs.length ∧
    ((reconcileReferences dossier refs).getD i refDefault).id =
      (refs.getD i refDefault).id ∧
    ((reconcileReferences dossier refs).getD i refDefault).title =
      (refs.getD i refDefault).title ∧
    ((reconcileReferences dossier refs).getD i refDefault).fragment =
      (refs.getD i refDefault).fragment ∧
    (match dossier.find? (fun item => item.id == (refs.getD i refDefault).id) with
     | some item =>
        ((reconcileReferences dossier refs).getD i refDefault).lawNumber =
          item.lawNumber ∧
        ((reconcileReferences dossier refs).getD i refDefault).publicationDate =
          item.publicationDate ∧
        ((reconcileReferences dossier refs).getD i refDefault).effectiveDate =
          item.effectiveDate ∧
        ((reconcileReferences dossier refs).getD i refDefault).link = item.link ∧
        ((reconcileReferences dossier refs).getD i refDefault).sourceQueries =
          item.sourceQueries
     | none => (reconcileReferences dossier refs).getD i refDefault =
        refs.getD i refDefault) := by
  have hlen : (reconcileReferences dossier refs).length = refs.length := by
    simp [reconcileReferences]
  have hi2 : i < (reconcileReferences dossier refs).length := by
    rw [hlen]
    exact hi
  have hgd : (reconcileReferences dossier refs).getD i refDefault =
      (match dossier.find? (fun item => item.id == (refs.getD i refDefault).id) with
       | some item =>
         { refs.getD i refDefault with
           lawNumber := item.lawNumber
           publicationDate := item.publicationDate
           effectiveDate := item.effectiveDate
           link := item.link
           sourceQueries := item.sourceQueries }
       | none => refs.getD i refDefault) := by
    rw [List.getD_eq_getElem _ _ hi2, List.getD_eq_getElem _ _ hi]
    simp only [reconcileReferences, List.getElem_map]
  refine ⟨hlen, ?_, ?_, ?_, ?_⟩ <;>
  · rw [hgd]
    cases hf : dossier.find? (fun item => item.id == (refs.getD i refDefault).id) with
    | some item => simp
    | none => simp

/-- A concrete oracle-supplied reference matching itemA. -/
def refA : AiReference :=
  { id := "A", lawNumber := some "9", title := "T", fragment := "F",
    publicationDate := "x", effectiveDate := "y", link := "z", sourceQueries := [] }

/-- C6 witness: one matched and the length fact on a concrete pair. -/
theorem c6_reference_reconciliation_witness :
    (reconcileReferences [itemA] [refA]).length = 1 ∧
    ((reconcileReferences [itemA] [refA]).getD 0 refDefault).id =
      (([refA] : List AiReference).getD 0 refDefault).id :=
  ⟨by
    have h := (c6_reference_reconciliation [itemA] [refA] 0 (by decide)).1
    simpa using h,
   (c6_reference_reconciliation [itemA] [refA] 0 (by decide)).2.1⟩

/-- C10: every entry a search iteration writes carries non-empty full text
— a looked-up entry is either pre-existing or has non-empty text — and a
genuinely new candidate whose full-text fetch returns empty text is never
added to the dossier at all. -/
theorem c10_fulltext_nonempty (env : Env) (queries : List String)
    (cur : List ChatMessage) (d : Dossier) :
    (∀ k v, dGet? (searchIteration env queries cur d).2.1 k = some v →
      dGet? d k = some v ∨ v.fullText ≠ "") ∧
    (∀ k, dHas d k = false → (fetchFullLawText env k).1 = .ok "" →
      dHas (searchIteration env queries cur d).2.1 k = false) :=
  searchIteration_fulltext env queries cur d

/-- C10 witness: law A (text present) is stored with its text; law B
(empty text) is absent from the dossier. -/
theorem c10_fulltext_nonempty_witness :
    (dGet? ([] : Dossier) "A" = some itemA ∨ itemA.fullText ≠ "") ∧
    dHas (searchIteration envTwoLaws ["q"] [] []).2.1 "B" = false :=
  ⟨(c10_fulltext_nonempty envTwoLaws ["q"] [] []).1 "A" itemA (by decide),
   (c10_fulltext_nonempty envTwoLaws ["q"] [] []).2 "B" (by decide) rfl⟩

end LeyesCL
